import Mathlib

/-!
Verification of the imagecolorizer pixel-transform pipeline (src/main.rs).

Shallow embedding notes:
* `Rgb<u8>` is embedded as a structure of three `Fin 256` channels.
* `u32` / `usize` arithmetic is embedded as `Nat`: every value that the code
  computes in those types (channel sums, distances bounded by 765, u32::MAX
  as a fold initialiser compared against distances) stays far below the
  wrap-around point for the inputs the proofs quantify over, so `Nat` is the
  exact semantics of the machine arithmetic on those values.
* `i32` coordinate arithmetic is embedded as `Int` (the code comments itself
  that it assumes images small enough for these casts to be exact).
* Rust panics (integer division by zero in `average_color` on an empty
  sample vector) are embedded as `Option`: `none` models the panic.
-/

set_option maxRecDepth 10000

/-- One pixel: three 8-bit channels, mirroring `image::Rgb<u8>`. -/
structure Rgb where
  r : Fin 256
  g : Fin 256
  b : Fin 256
deriving DecidableEq

/-- The `[u8; 3]` channel array that `.0` extracts from `Rgb`, as a list of
channel values. -/
def Rgb.channels (c : Rgb) : List Nat := [c.r.val, c.g.val, c.b.val]

/-- `fn color_difference(color1: Rgb<u8>, color2: Rgb<u8>) -> u32`
(src/main.rs:53-62): zip the two channel arrays and fold, adding
`max - min` of each channel pair (the u8 absolute difference) to the
accumulator. -/
def color_difference (color1 color2 : Rgb) : Nat :=
  (List.zip color1.channels color2.channels).foldl
    (fun acc colors => acc + (max colors.1 colors.2 - min colors.1 colors.2)) 0

/-- `fn average_color(pixels: Vec<Rgb<u8>>) -> Rgb<u8>` (src/main.rs:64-79):
fold channel sums, divide each by `pixels.len()` and clamp to `[0,255]`
(on `Nat` the lower clamp is a no-op, the upper is `min _ 255`).
An empty input makes the Rust code divide by zero, which panics: `none`. -/
def average_color (pixels : List Rgb) : Option Rgb :=
  if pixels.length = 0 then none
  else
    let avg := pixels.foldl
      (fun acc pixel => (acc.1 + pixel.r.val, acc.2.1 + pixel.g.val, acc.2.2 + pixel.b.val))
      ((0, 0, 0) : Nat × Nat × Nat)
    some ⟨⟨min (avg.1 / pixels.length) 255, by omega⟩,
          ⟨min (avg.2.1 / pixels.length) 255, by omega⟩,
          ⟨min (avg.2.2 / pixels.length) 255, by omega⟩⟩

/-- `image::RgbImage`: a width x height row-major pixel buffer.  The length
invariant is the buffer invariant `ImageBuffer` maintains. -/
structure RgbImage where
  width : Nat
  height : Nat
  pixels : List Rgb
  hsize : pixels.length = width * height

/-- `ImageBuffer::get_pixel_checked(x, y)`: `Some` exactly when `x < width`
and `y < height`; the pixel lives at row-major index `y * width + x`. -/
def RgbImage.get_pixel_checked (img : RgbImage) (x y : Nat) : Option Rgb :=
  if x < img.width ∧ y < img.height then img.pixels.get? (y * img.width + x) else none

/-- `RgbImage::new(w, h)` (src/main.rs:133): a zero-initialised buffer. -/
def RgbImage.mk0 (w h : Nat) : RgbImage :=
  ⟨w, h, List.replicate (w * h) ⟨0, 0, 0⟩, by simp⟩

/-- `ImageBuffer::put_pixel(x, y, pixel)`: overwrite row-major index
`y * width + x`.  (In every use below the index is in bounds, matching the
code, so the out-of-bounds no-op of `List.set` is never exercised.) -/
def RgbImage.put_pixel (img : RgbImage) (x y : Nat) (pixel : Rgb) : RgbImage :=
  ⟨img.width, img.height, img.pixels.set (y * img.width + x) pixel, by
    rw [List.length_set]; exact img.hsize⟩

/-- `i32::clamp(lo, hi)` for `lo <= hi`: below the range gives `lo`, above
gives `hi`, inside gives the value itself. -/
def iclamp (v lo hi : Int) : Int := if v < lo then lo else if hi < v then hi else v

/-- The Rust range `-a..a` as the list `[-a, -a+1, ..., a-1]`
(empty when `a <= 0`), as iterated by the two sample loops
(src/main.rs:200-201). -/
def offsetRange (a : Int) : List Int :=
  (List.range (2 * a).toNat).map (fun i => -a + Int.ofNat i)

/-- One iteration of the inner sample loop body (src/main.rs:205-210):
clamp each coordinate of `(x + column, y + row)` into `[0, dimension]`
(upper bound `width` / `height` itself, as the code writes), cast to
unsigned, and look the pixel up with `get_pixel_checked`. -/
def sampleAt (img : RgbImage) (x y : Nat) (row column : Int) : Option Rgb :=
  img.get_pixel_checked
    (iclamp ((x : Int) + column) 0 (img.width : Int)).toNat
    (iclamp ((y : Int) + row) 0 (img.height : Int)).toNat

/-- The sample-collection double loop (src/main.rs:198-212): build
`pixel_vec` by pushing every successfully looked-up clamped sample. -/
def samplePixels (img : RgbImage) (x y : Nat) (average : Int) : List Rgb :=
  (offsetRange average).foldl
    (fun pixel_vec row =>
      (offsetRange average).foldl
        (fun pixel_vec column =>
          match sampleAt img x y row column with
          | some pixel => pixel_vec ++ [pixel]
          | none => pixel_vec)
        pixel_vec)
    []

/-- `u32::MAX`, the fold initialiser of the nearest-colour search. -/
def u32MAX : Nat := 4294967295

/-- The nearest-palette-colour closure (src/main.rs:219-234): pair every
palette entry with its `color_difference` to the pixel, fold keeping the
strictly smaller distance, starting from `(Rgb([0,0,0]), u32::MAX)`, and
return the colour component. -/
def nearest_color (palette : List Rgb) (averaged_pixel : Rgb) : Rgb :=
  ((palette.map (fun color => (color, color_difference averaged_pixel color))).foldl
    (fun lowest_current x => if x.2 < lowest_current.2 then x else lowest_current)
    (⟨⟨0, 0, 0⟩, u32MAX⟩ : Rgb × Nat)).1

/-- The first per-pixel closure (src/main.rs:193-217): if `args.average > 0`
average the sample window, otherwise return the pixel itself.  `none`
models the divide-by-zero panic of `average_color` on an empty window. -/
def pixelStage1 (img : RgbImage) (average : Int) (x y : Nat) (pixel : Rgb) : Option Rgb :=
  if average > 0 then average_color (samplePixels img x y average)
  else some pixel

/-- Both per-pixel map stages composed (src/main.rs:193-234). -/
def pixelColor (img : RgbImage) (palette : List Rgb) (average : Int)
    (x y : Nat) (pixel : Rgb) : Option Rgb :=
  (pixelStage1 img average x y pixel).map (fun averaged_pixel => nearest_color palette averaged_pixel)

/-- `par_enumerate_pixels()`: the row-major stream of `(x, y, pixel)`
triples.  By `hsize` every index is in bounds, so the `getD` default is
never produced. -/
def enumeratePixels (img : RgbImage) : List (Nat × Nat × Rgb) :=
  (List.range (img.width * img.height)).map
    (fun i => (i % img.width, i / img.width, img.pixels.getD i ⟨0, 0, 0⟩))

/-- The `.map(...).map(...).collect()` of the pixel pipeline
(src/main.rs:191-235) over an explicit triple list, sequencing the
per-pixel `Option` results: `none` as soon as one pixel panics. -/
def collectResults (img : RgbImage) (palette : List Rgb) (average : Int) :
    List (Nat × Nat × Rgb) → Option (List Rgb)
  | [] => some []
  | t :: ts =>
    match pixelColor img palette average t.1 t.2.1 t.2.2,
          collectResults img palette average ts with
    | some c, some cs => some (c :: cs)
    | _, _ => none

/-- The scatter loop body (src/main.rs:239-243) run over an arbitrary
schedule of indices `i`, writing `output[i]` to `(i % w, i / w)`.  The
sequential program is the schedule `[0, 1, ..., len-1]`; any worker
interleaving of the writes is some other schedule. -/
def scatterSched (w : Nat) (output : List Rgb) (out0 : RgbImage) (sched : List Nat) : RgbImage :=
  sched.foldl
    (fun output_img i => output_img.put_pixel (i % w) (i / w) (output.getD i ⟨0, 0, 0⟩))
    out0

/-- The sequential scatter loop exactly as written: `for i in 0..output.len()`. -/
def scatter (w : Nat) (output : List Rgb) (out0 : RgbImage) : RgbImage :=
  scatterSched w output out0 (List.range output.length)

/-- The core transform (src/main.rs:191-243) on the (possibly already
quantized) input grid: run the per-pixel pipeline over the enumeration,
then scatter into a fresh zero image of the input dimensions. -/
def transform (img : RgbImage) (palette : List Rgb) (average : Int) : Option RgbImage :=
  (collectResults img palette average (enumeratePixels img)).map
    (fun output => scatter img.width output (RgbImage.mk0 img.width img.height))

/-- The transform with the scatter writes performed in an arbitrary
schedule order. -/
def transformSched (img : RgbImage) (palette : List Rgb) (average : Int)
    (sched : List Nat) : Option RgbImage :=
  (collectResults img palette average (enumeratePixels img)).map
    (fun output => scatterSched img.width output (RgbImage.mk0 img.width img.height) sched)

/-- The pipeline from output allocation (src/main.rs:133) through the
scatter (src/main.rs:243), with the quantizer as an abstract collaborator
(the `quantette` crate is external to this repository; the spec gives it
the contract of a dimension-preserving transform).  `quantizer` receives
the dither flag `!args.no_dither`.  The output buffer is allocated from
the original image dimensions before quantization runs, and the scatter
computes coordinates from the (possibly quantized) working image width,
exactly as the code does. -/
def full_pipeline (quantizer : Bool → RgbImage → RgbImage)
    (no_quantize no_dither : Bool) (img0 : RgbImage) (palette : List Rgb)
    (average : Int) : Option RgbImage :=
  let input_img := if no_quantize then img0 else quantizer (!no_dither) img0
  (collectResults input_img palette average (enumeratePixels input_img)).map
    (fun output => scatter input_img.width output (RgbImage.mk0 img0.width img0.height))

/-- The pure per-coordinate result: what the pipeline computes for pixel
`(x, y)` whenever it does not hit the empty-window panic (the `getD`
default is never reached for in-bounds coordinates). -/
def pixelFn (img : RgbImage) (palette : List Rgb) (average : Int) (x y : Nat) (pixel : Rgb) : Rgb :=
  nearest_color palette
    (if average > 0 then (average_color (samplePixels img x y average)).getD pixel else pixel)

/-- The black / white palette of the spec example in section 8. -/
def palBW : List Rgb := [⟨0, 0, 0⟩, ⟨255, 255, 255⟩]

/-- A 1x1 image holding the single pixel (10,10,10). -/
def img10 : RgbImage := ⟨1, 1, [⟨10, 10, 10⟩], by decide⟩

/-- The 2x2 end-to-end scenario grid of the spec in section 8. -/
def img22 : RgbImage :=
  ⟨2, 2, [⟨10, 10, 10⟩, ⟨250, 250, 250⟩, ⟨10, 10, 10⟩, ⟨250, 250, 250⟩], by decide⟩

/-- A 1x1 all-white image. -/
def imgOne : RgbImage := ⟨1, 1, [⟨255, 255, 255⟩], by decide⟩

lemma color_difference_eq (a b : Rgb) :
    color_difference a b =
      ((a.r.val : Int) - b.r.val).natAbs + ((a.g.val : Int) - b.g.val).natAbs
        + ((a.b.val : Int) - b.b.val).natAbs := by
  simp only [color_difference, Rgb.channels, List.zip, List.zipWith, List.foldl]
  omega

lemma color_difference_le (a b : Rgb) : color_difference a b ≤ 765 := by
  have h1 := a.r.isLt
  have h2 := a.g.isLt
  have h3 := a.b.isLt
  have h4 := b.r.isLt
  have h5 := b.g.isLt
  have h6 := b.b.isLt
  rw [color_difference_eq]
  omega

lemma color_difference_self (a : Rgb) : color_difference a a = 0 := by
  rw [color_difference_eq]; omega

lemma sum_fold (pixels : List Rgb) :
    ∀ acc : Nat × Nat × Nat,
      pixels.foldl
        (fun acc pixel => (acc.1 + pixel.r.val, acc.2.1 + pixel.g.val, acc.2.2 + pixel.b.val))
        acc
      = (acc.1 + ((pixels.map fun p => p.r.val).sum),
         acc.2.1 + ((pixels.map fun p => p.g.val).sum),
         acc.2.2 + ((pixels.map fun p => p.b.val).sum)) := by
  induction pixels with
  | nil => intro acc; simp
  | cons p ps ih =>
    intro acc
    simp only [List.foldl_cons, List.map_cons, List.sum_cons, ih]
    simp [Nat.add_assoc]

lemma foldl_min_first (l : List (Rgb × Nat)) :
    ∀ acc : Rgb × Nat,
      (l.foldl (fun lowest_current x => if x.2 < lowest_current.2 then x else lowest_current) acc = acc
        ∧ ∀ x ∈ l, acc.2 ≤ x.2)
      ∨ (∃ i, ∃ hi : i < l.length,
          l.foldl (fun lowest_current x => if x.2 < lowest_current.2 then x else lowest_current) acc
            = l.get ⟨i, hi⟩
          ∧ (l.get ⟨i, hi⟩).2 < acc.2
          ∧ (∀ x ∈ l, (l.get ⟨i, hi⟩).2 ≤ x.2)
          ∧ ∀ j, ∀ hj : j < i, (l.get ⟨i, hi⟩).2 < (l.get ⟨j, Nat.lt_trans hj hi⟩).2) := by
  induction l with
  | nil => intro acc; left; exact ⟨rfl, by simp⟩
  | cons x l ih =>
    intro acc
    rw [List.foldl_cons]
    by_cases hx : x.2 < acc.2
    · rw [if_pos hx]
      rcases ih x with ⟨heq, hmin⟩ | ⟨i, hi, heq, hlt, hmin, hfirst⟩
      · right
        refine ⟨0, by simp, heq, ?_, ?_, ?_⟩
        · exact hx
        · intro y hy
          rcases List.mem_cons.mp hy with rfl | hy
          · exact Nat.le_refl _
          · exact hmin y hy
        · intro j hj; omega
      · right
        refine ⟨i + 1, by simpa using Nat.succ_lt_succ hi, ?_, ?_, ?_, ?_⟩
        · exact heq
        · exact Nat.lt_trans hlt hx
        · intro y hy
          rcases List.mem_cons.mp hy with rfl | hy
          · exact Nat.le_of_lt hlt
          · exact hmin y hy
        · intro j hj
          cases j with
          | zero => exact hlt
          | succ j => exact hfirst j (Nat.lt_of_succ_lt_succ hj)
    · rw [if_neg hx]
      rcases ih acc with ⟨heq, hmin⟩ | ⟨i, hi, heq, hlt, hmin, hfirst⟩
      · left
        refine ⟨heq, ?_⟩
        intro y hy
        rcases List.mem_cons.mp hy with rfl | hy
        · omega
        · exact hmin y hy
      · right
        refine ⟨i + 1, by simpa using Nat.succ_lt_succ hi, ?_, ?_, ?_, ?_⟩
        · exact heq
        · exact hlt
        · intro y hy
          rcases List.mem_cons.mp hy with rfl | hy
          · show (l.get ⟨i, hi⟩).2 ≤ y.2
            omega
          · exact hmin y hy
        · intro j hj
          cases j with
          | zero =>
            show (l.get ⟨i, hi⟩).2 < x.2
            omega
          | succ j => exact hfirst j (Nat.lt_of_succ_lt_succ hj)

lemma getq_isSome (l : List Rgb) (n : Nat) : (l.get? n).isSome = true ↔ n < l.length := by
  constructor
  · intro h
    by_contra hn
    push_neg at hn
    rw [List.get?_eq_none.mpr hn] at h
    simp at h
  · intro h
    rw [List.get?_eq_get h]
    rfl

lemma row_major_lt (w h x y : Nat) (hx : x < w) (hy : y < h) : y * w + x < w * h := by
  calc y * w + x < y * w + w := by omega
  _ = (y + 1) * w := by ring
  _ ≤ h * w := Nat.mul_le_mul_right _ (by omega)
  _ = w * h := Nat.mul_comm _ _

lemma get_pixel_isSome (img : RgbImage) (x y : Nat) (hx : x < img.width) (hy : y < img.height) :
    ∃ p, img.get_pixel_checked x y = some p := by
  unfold RgbImage.get_pixel_checked
  rw [if_pos ⟨hx, hy⟩]
  have hlt : y * img.width + x < img.pixels.length := by
    rw [img.hsize]; exact row_major_lt _ _ _ _ hx hy
  exact ⟨_, List.get?_eq_get hlt⟩

lemma get_pixel_some_bounds (img : RgbImage) (x y : Nat) (p : Rgb)
    (h : img.get_pixel_checked x y = some p) :
    x < img.width ∧ y < img.height ∧ img.pixels.get? (y * img.width + x) = some p := by
  unfold RgbImage.get_pixel_checked at h
  by_cases hc : x < img.width ∧ y < img.height
  · rw [if_pos hc] at h
    exact ⟨hc.1, hc.2, h⟩
  · rw [if_neg hc] at h
    exact absurd h (by simp)

lemma foldl_push_filterMap (f : Int → Option Rgb) :
    ∀ (l : List Int) (acc : List Rgb),
      l.foldl (fun v c => match f c with | some p => v ++ [p] | none => v) acc
        = acc ++ l.filterMap f := by
  intro l
  induction l with
  | nil => intro acc; simp
  | cons c l ih =>
    intro acc
    rw [List.foldl_cons, List.filterMap_cons]
    cases hfc : f c with
    | none => simp only [hfc, ih]
    | some p => simp only [hfc, ih, List.append_assoc, List.singleton_append]

lemma foldl_append_bind (g : Int → List Rgb) :
    ∀ (l : List Int) (acc : List Rgb),
      l.foldl (fun v r => v ++ g r) acc = acc ++ l.flatMap g := by
  intro l
  induction l with
  | nil => intro acc; simp
  | cons c l ih =>
    intro acc
    rw [List.foldl_cons, List.flatMap_cons, ih, List.append_assoc]

lemma samplePixels_eq (img : RgbImage) (x y : Nat) (average : Int) :
    samplePixels img x y average
      = (offsetRange average).flatMap
          (fun row => (offsetRange average).filterMap (fun column => sampleAt img x y row column)) := by
  unfold samplePixels
  have hfun :
      (fun (pixel_vec : List Rgb) (row : Int) =>
        (offsetRange average).foldl
          (fun pixel_vec column =>
            match sampleAt img x y row column with
            | some pixel => pixel_vec ++ [pixel]
            | none => pixel_vec)
          pixel_vec)
      = (fun (pixel_vec : List Rgb) (row : Int) =>
          pixel_vec ++ (offsetRange average).filterMap (fun column => sampleAt img x y row column)) := by
    funext pixel_vec row
    exact foldl_push_filterMap _ _ _
  rw [hfun, foldl_append_bind]
  simp

lemma mem_offsetRange (a v : Int) : v ∈ offsetRange a ↔ (-a ≤ v ∧ v < a) := by
  unfold offsetRange
  rw [List.mem_map]
  constructor
  · rintro ⟨i, hi, rfl⟩
    rw [List.mem_range] at hi
    simp only [Int.ofNat_eq_coe]
    omega
  · rintro ⟨h1, h2⟩
    refine ⟨(v + a).toNat, ?_, ?_⟩
    · rw [List.mem_range]
      omega
    · simp only [Int.ofNat_eq_coe]
      omega

lemma sampleAt_isSome_iff (img : RgbImage) (x y : Nat) (row column : Int) :
    (sampleAt img x y row column).isSome = true
      ↔ ((x : Int) + column < img.width ∧ (y : Int) + row < img.height
          ∧ 0 < img.width ∧ 0 < img.height) := by
  unfold sampleAt RgbImage.get_pixel_checked iclamp
  by_cases hc : (iclamp ((x : Int) + column) 0 (img.width : Int)).toNat < img.width
      ∧ (iclamp ((y : Int) + row) 0 (img.height : Int)).toNat < img.height
  · unfold iclamp at hc
    rw [if_pos hc]
    rw [getq_isSome, img.hsize]
    constructor
    · intro _
      rcases hc with ⟨hc1, hc2⟩
      split_ifs at hc1 hc2 <;> omega
    · intro _
      exact row_major_lt _ _ _ _ hc.1 hc.2
  · unfold iclamp at hc
    rw [if_neg hc]
    constructor
    · intro h
      simp at h
    · intro hr
      exfalso
      apply hc
      constructor
      · split_ifs <;> omega
      · split_ifs <;> omega

lemma sampleAt_center (img : RgbImage) (x y : Nat) (hx : x < img.width) (hy : y < img.height) :
    sampleAt img x y 0 0 = img.get_pixel_checked x y := by
  unfold sampleAt
  have h1 : (iclamp ((x : Int) + 0) 0 (img.width : Int)).toNat = x := by
    unfold iclamp
    split_ifs <;> omega
  have h2 : (iclamp ((y : Int) + 0) 0 (img.height : Int)).toNat = y := by
    unfold iclamp
    split_ifs <;> omega
  rw [h1, h2]

lemma samplePixels_ne_nil (img : RgbImage) (x y : Nat) (average : Int)
    (ha : 0 < average) (hx : x < img.width) (hy : y < img.height) :
    samplePixels img x y average ≠ [] := by
  obtain ⟨p, hp⟩ := get_pixel_isSome img x y hx hy
  have hzero : (0 : Int) ∈ offsetRange average := by
    rw [mem_offsetRange]
    omega
  have hmem : p ∈ samplePixels img x y average := by
    rw [samplePixels_eq, List.mem_flatMap]
    refine ⟨0, hzero, ?_⟩
    rw [List.mem_filterMap]
    refine ⟨0, hzero, ?_⟩
    rw [sampleAt_center img x y hx hy]
    exact hp
  exact List.ne_nil_of_mem hmem

lemma average_color_isSome (pixels : List Rgb) (h : pixels ≠ []) :
    (average_color pixels).isSome = true := by
  unfold average_color
  rw [if_neg (by simpa using h)]
  rfl

lemma pixelColor_some (img : RgbImage) (palette : List Rgb) (average : Int)
    (x y : Nat) (pixel : Rgb) (hx : x < img.width) (hy : y < img.height) :
    pixelColor img palette average x y pixel
      = some (pixelFn img palette average x y pixel) := by
  unfold pixelColor pixelStage1 pixelFn
  by_cases ha : average > 0
  · rw [if_pos ha, if_pos ha]
    obtain ⟨c, hc⟩ := Option.isSome_iff_exists.mp
      (average_color_isSome _ (samplePixels_ne_nil img x y average ha hx hy))
    rw [hc]
    rfl
  · rw [if_neg ha, if_neg ha]
    rfl

lemma collectResults_eq_map (img : RgbImage) (palette : List Rgb) (average : Int) :
    ∀ l : List (Nat × Nat × Rgb),
      (∀ t ∈ l, t.1 < img.width ∧ t.2.1 < img.height) →
      collectResults img palette average l
        = some (l.map (fun t => pixelFn img palette average t.1 t.2.1 t.2.2)) := by
  intro l
  induction l with
  | nil => intro _; rfl
  | cons t ts ih =>
    intro hb
    have ht := hb t (List.mem_cons_self t ts)
    have hts := ih (fun u hu => hb u (List.mem_cons_of_mem t hu))
    unfold collectResults
    rw [pixelColor_some img palette average t.1 t.2.1 t.2.2 ht.1 ht.2, hts]
    rfl

lemma enumeratePixels_bounds (img : RgbImage) :
    ∀ t ∈ enumeratePixels img, t.1 < img.width ∧ t.2.1 < img.height := by
  intro t ht
  unfold enumeratePixels at ht
  rw [List.mem_map] at ht
  obtain ⟨i, hi, rfl⟩ := ht
  rw [List.mem_range] at hi
  have hw : 0 < img.width := by
    rcases Nat.eq_zero_or_pos img.width with h0 | h
    · rw [h0] at hi; omega
    · exact h
  constructor
  · exact Nat.mod_lt i hw
  · exact (Nat.div_lt_iff_lt_mul hw).mpr (by rw [Nat.mul_comm]; exact hi)

lemma enumeratePixels_length (img : RgbImage) :
    (enumeratePixels img).length = img.width * img.height := by
  unfold enumeratePixels
  rw [List.length_map, List.length_range]

lemma get_set_q (l : List Rgb) (i j : Nat) (a : Rgb) :
    (l.set i a).get? j = if i = j ∧ j < l.length then some a else l.get? j := by
  rw [List.get?_set]
  by_cases hij : i = j
  · subst hij
    by_cases hj : i < l.length
    · rw [if_pos rfl, if_pos ⟨rfl, hj⟩, List.get?_eq_get hj]
      rfl
    · rw [if_pos rfl, if_neg (fun h => hj h.2), List.get?_eq_none.mpr (by omega)]
      rfl
  · rw [if_neg hij, if_neg (fun h => hij h.1)]

lemma foldl_set_get (v : Nat → Rgb) :
    ∀ (sched : List Nat) (l : List Rgb) (j : Nat),
      (sched.foldl (fun l i => l.set i (v i)) l).get? j
        = if j ∈ sched ∧ j < l.length then some (v j) else l.get? j := by
  intro sched
  induction sched with
  | nil => intro l j; simp
  | cons i s ih =>
    intro l j
    rw [List.foldl_cons, ih (l.set i (v i)) j, List.length_set, get_set_q]
    by_cases hs : j ∈ s ∧ j < l.length
    · rw [if_pos hs, if_pos ⟨List.mem_cons_of_mem i hs.1, hs.2⟩]
    · rw [if_neg hs]
      by_cases hij : i = j ∧ j < l.length
      · rw [if_pos hij, if_pos ⟨by rw [← hij.1]; exact List.mem_cons_self i s, hij.2⟩]
        rw [hij.1]
      · rw [if_neg hij]
        by_cases hj : j ∈ i :: s ∧ j < l.length
        · exfalso
          rcases List.mem_cons.mp hj.1 with rfl | hmem
          · exact hij ⟨rfl, hj.2⟩
          · exact hs ⟨hmem, hj.2⟩
        · rw [if_neg hj]

lemma scatterSched_width (w : Nat) (output : List Rgb) (sched : List Nat) :
    ∀ out0 : RgbImage, (scatterSched w output out0 sched).width = out0.width := by
  induction sched with
  | nil => intro out0; rfl
  | cons i s ih =>
    intro out0
    rw [scatterSched, List.foldl_cons]
    exact ih _

lemma scatterSched_height (w : Nat) (output : List Rgb) (sched : List Nat) :
    ∀ out0 : RgbImage, (scatterSched w output out0 sched).height = out0.height := by
  induction sched with
  | nil => intro out0; rfl
  | cons i s ih =>
    intro out0
    rw [scatterSched, List.foldl_cons]
    exact ih _

lemma scatterSched_pixels (w : Nat) (output : List Rgb) (sched : List Nat) :
    ∀ out0 : RgbImage, out0.width = w →
      (scatterSched w output out0 sched).pixels
        = sched.foldl (fun l i => l.set i (output.getD i ⟨0, 0, 0⟩)) out0.pixels := by
  induction sched with
  | nil => intro out0 _; rfl
  | cons i s ih =>
    intro out0 hw
    have hw2 : (out0.put_pixel (i % w) (i / w) (output.getD i ⟨0, 0, 0⟩)).width = w := hw
    have hput : (out0.put_pixel (i % w) (i / w) (output.getD i ⟨0, 0, 0⟩)).pixels
        = out0.pixels.set i (output.getD i ⟨0, 0, 0⟩) := by
      show out0.pixels.set (i / w * out0.width + i % w) (output.getD i ⟨0, 0, 0⟩)
          = out0.pixels.set i (output.getD i ⟨0, 0, 0⟩)
      rw [hw, Nat.mul_comm, Nat.div_add_mod]
    calc (scatterSched w output out0 (i :: s)).pixels
        = (scatterSched w output
            (out0.put_pixel (i % w) (i / w) (output.getD i ⟨0, 0, 0⟩)) s).pixels := rfl
      _ = List.foldl (fun l i => l.set i (output.getD i ⟨0, 0, 0⟩))
            (out0.put_pixel (i % w) (i / w) (output.getD i ⟨0, 0, 0⟩)).pixels s := ih _ hw2
      _ = List.foldl (fun l i => l.set i (output.getD i ⟨0, 0, 0⟩))
            (out0.pixels.set i (output.getD i ⟨0, 0, 0⟩)) s := by rw [hput]
      _ = List.foldl (fun l i => l.set i (output.getD i ⟨0, 0, 0⟩)) out0.pixels (i :: s) := rfl

lemma RgbImage.eq_of_parts (a b : RgbImage) (hw : a.width = b.width)
    (hh : a.height = b.height) (hp : a.pixels = b.pixels) : a = b := by
  cases a
  cases b
  simp only at hw hh hp
  subst hw
  subst hh
  subst hp
  rfl

lemma mk0_pixels_length (w h : Nat) : (RgbImage.mk0 w h).pixels.length = w * h := by
  unfold RgbImage.mk0
  exact List.length_replicate _ _

lemma transform_spec (img : RgbImage) (palette : List Rgb) (average : Int) :
    ∃ out, transform img palette average = some out ∧
      out.width = img.width ∧ out.height = img.height ∧
      ∀ x y pixel, img.get_pixel_checked x y = some pixel →
        out.get_pixel_checked x y = some (pixelFn img palette average x y pixel) := by
  have hcoll := collectResults_eq_map img palette average
    (enumeratePixels img) (enumeratePixels_bounds img)
  set output := (enumeratePixels img).map
    (fun t => pixelFn img palette average t.1 t.2.1 t.2.2) with houtput
  have holen : output.length = img.width * img.height := by
    rw [houtput, List.length_map, enumeratePixels_length]
  refine ⟨scatter img.width output (RgbImage.mk0 img.width img.height), ?_, ?_, ?_, ?_⟩
  · rw [transform, hcoll]
    rfl
  · rw [scatter]
    exact scatterSched_width _ _ _ _
  · rw [scatter]
    exact scatterSched_height _ _ _ _
  · intro x y pixel hp
    obtain ⟨hx, hy, hgetp⟩ := get_pixel_some_bounds img x y pixel hp
    have how : (scatter img.width output (RgbImage.mk0 img.width img.height)).width
        = img.width := by rw [scatter]; exact scatterSched_width _ _ _ _
    have hoh : (scatter img.width output (RgbImage.mk0 img.width img.height)).height
        = img.height := by rw [scatter]; exact scatterSched_height _ _ _ _
    have hj : y * img.width + x < img.width * img.height := row_major_lt _ _ _ _ hx hy
    unfold RgbImage.get_pixel_checked
    rw [how, hoh, if_pos ⟨hx, hy⟩]
    have hpx : (scatter img.width output (RgbImage.mk0 img.width img.height)).pixels
        = (List.range output.length).foldl
            (fun l i => l.set i (output.getD i ⟨0, 0, 0⟩))
            (RgbImage.mk0 img.width img.height).pixels := by
      rw [scatter]
      exact scatterSched_pixels _ _ _ _ rfl
    rw [hpx, foldl_set_get]
    rw [if_pos ⟨List.mem_range.mpr (by omega), by rw [mk0_pixels_length]; exact hj⟩]
    have hmod : (y * img.width + x) % img.width = x := by
      rw [Nat.mul_comm, Nat.mul_add_mod]
      exact Nat.mod_eq_of_lt hx
    have hdiv : (y * img.width + x) / img.width = y := by
      rw [Nat.mul_comm, Nat.mul_add_div (by omega), Nat.div_eq_of_lt hx]
      omega
    have henum : (enumeratePixels img).get? (y * img.width + x)
        = some (x, y, pixel) := by
      unfold enumeratePixels
      rw [List.get?_map, List.get?_range hj]
      have hgd : img.pixels.getD (y * img.width + x) ⟨0, 0, 0⟩ = pixel := by
        rw [List.getD_eq_get?, hgetp]
        rfl
      show some ((y * img.width + x) % img.width, (y * img.width + x) / img.width,
          img.pixels.getD (y * img.width + x) ⟨0, 0, 0⟩) = some (x, y, pixel)
      rw [hmod, hdiv, hgd]
    have hout : output.getD (y * img.width + x) ⟨0, 0, 0⟩
        = pixelFn img palette average x y pixel := by
      rw [List.getD_eq_get?, houtput, List.get?_map, henum]
      rfl
    rw [hout]

lemma transformSched_eq_transform (img : RgbImage) (palette : List Rgb) (average : Int)
    (sched : List Nat)
    (hperm : sched.Perm (List.range (img.width * img.height))) :
    transformSched img palette average sched = transform img palette average := by
  rw [transformSched, transform,
    collectResults_eq_map img palette average (enumeratePixels img) (enumeratePixels_bounds img)]
  set output := (enumeratePixels img).map
    (fun t => pixelFn img palette average t.1 t.2.1 t.2.2) with houtput
  have holen : output.length = img.width * img.height := by
    rw [houtput, List.length_map, enumeratePixels_length]
  show some (scatterSched img.width output (RgbImage.mk0 img.width img.height) sched)
      = some (scatter img.width output (RgbImage.mk0 img.width img.height))
  refine congrArg some (RgbImage.eq_of_parts _ _ ?_ ?_ ?_)
  · rw [scatter, scatterSched_width, scatterSched_width]
  · rw [scatter, scatterSched_height, scatterSched_height]
  · rw [scatter,
      scatterSched_pixels img.width output sched (RgbImage.mk0 img.width img.height) rfl,
      scatterSched_pixels img.width output (List.range output.length)
        (RgbImage.mk0 img.width img.height) rfl]
    apply List.ext
    intro j
    rw [foldl_set_get, foldl_set_get]
    by_cases hc : j ∈ sched ∧ j < (RgbImage.mk0 img.width img.height).pixels.length
    · have hmem : j ∈ List.range output.length := by
        have := hperm.mem_iff.mp hc.1
        rw [List.mem_range] at this
        rw [List.mem_range]
        omega
      rw [if_pos hc, if_pos ⟨hmem, hc.2⟩]
    · have hnot : ¬(j ∈ List.range output.length
          ∧ j < (RgbImage.mk0 img.width img.height).pixels.length) := by
        intro hc2
        apply hc
        constructor
        · apply hperm.mem_iff.mpr
          have h1 := hc2.1
          rw [List.mem_range] at h1
          rw [List.mem_range]
          omega
        · exact hc2.2
      rw [if_neg hc, if_neg hnot]

lemma map_get_pair (palette : List Rgb) (c : Rgb) (i : Nat)
    (hi : i < (palette.map (fun color => (color, color_difference c color))).length)
    (hi2 : i < palette.length) :
    (palette.map (fun color => (color, color_difference c color))).get ⟨i, hi⟩
      = (palette.get ⟨i, hi2⟩, color_difference c (palette.get ⟨i, hi2⟩)) := by
  have h1 : (palette.map (fun color => (color, color_difference c color))).get? i
      = some ((palette.map (fun color => (color, color_difference c color))).get ⟨i, hi⟩) :=
    List.get?_eq_get hi
  have h2 : (palette.map (fun color => (color, color_difference c color))).get? i
      = some (palette.get ⟨i, hi2⟩, color_difference c (palette.get ⟨i, hi2⟩)) := by
    rw [List.get?_map, List.get?_eq_get hi2]
    rfl
  rw [h1] at h2
  exact Option.some.inj h2

/-- C3: for a non-empty palette the matcher returns a palette entry of
minimal `color_difference` to the input colour, and every strictly earlier
entry has strictly greater distance (first-wins tie-break). -/
theorem nearest_color_min_first (palette : List Rgb) (c : Rgb) (h : palette ≠ []) :
    ∃ i, palette.get? i = some (nearest_color palette c)
      ∧ (∀ p ∈ palette, color_difference c (nearest_color palette c) ≤ color_difference c p)
      ∧ ∀ j q, j < i → palette.get? j = some q →
          color_difference c (nearest_color palette c) < color_difference c q := by
  rcases foldl_min_first (palette.map (fun color => (color, color_difference c color)))
      ⟨⟨0, 0, 0⟩, u32MAX⟩ with ⟨heq, hmin⟩ | ⟨i, hi, heq, hlt, hmin, hfirst⟩
  · exfalso
    obtain ⟨p0, hp0⟩ := List.exists_mem_of_ne_nil palette h
    have hle := hmin (p0, color_difference c p0)
      (List.mem_map_of_mem (fun color => (color, color_difference c color)) hp0)
    have hb := color_difference_le c p0
    unfold u32MAX at hle
    simp only at hle
    omega
  · have hi2 : i < palette.length := by
      rw [List.length_map] at hi
      exact hi
    have hgeti := map_get_pair palette c i hi hi2
    have hne : nearest_color palette c = palette.get ⟨i, hi2⟩ := by
      unfold nearest_color
      rw [heq, hgeti]
    refine ⟨i, ?_, ?_, ?_⟩
    · rw [List.get?_eq_get hi2, hne]
    · intro p hp
      have hm := hmin (p, color_difference c p)
        (List.mem_map_of_mem (fun color => (color, color_difference c color)) hp)
      rw [hgeti] at hm
      rw [hne]
      exact hm
    · intro j q hj hq
      have hj2 : j < palette.length := Nat.lt_trans hj hi2
      have hqv : q = palette.get ⟨j, hj2⟩ := by
        rw [List.get?_eq_get hj2] at hq
        exact (Option.some.inj hq).symm
      have hf := hfirst j (by rw [List.length_map] at *; exact hj)
      have hgetj := map_get_pair palette c j (by rw [List.length_map]; exact hj2) hj2
      rw [hgeti, hgetj] at hf
      rw [hne, hqv]
      exact hf

/-- C6: with averaging radius 0 the transform never alters a pixel before
matching: the first pixel stage returns every pixel unchanged, and each
output pixel is the nearest palette colour of the corresponding source
pixel itself. -/
theorem radius_zero_identity (img : RgbImage) (palette : List Rgb) :
    (∀ x y pixel, pixelStage1 img 0 x y pixel = some pixel)
    ∧ ∀ out, transform img palette 0 = some out →
        ∀ x y pixel, img.get_pixel_checked x y = some pixel →
          out.get_pixel_checked x y = some (nearest_color palette pixel) := by
  constructor
  · intro x y pixel
    rfl
  · intro out hout x y pixel hp
    obtain ⟨out2, hsome, hw, hh, hchar⟩ := transform_spec img palette 0
    rw [hout] at hsome
    rw [Option.some.inj hsome]
    exact hchar x y pixel hp

/-- Witness for C6 on the concrete 1x1 image `img10`. -/
theorem radius_zero_identity_witness :
    pixelStage1 img10 0 0 0 ⟨10, 10, 10⟩ = some ⟨10, 10, 10⟩
    ∧ (RgbImage.mk 1 1 [⟨0, 0, 0⟩] (by decide)).get_pixel_checked 0 0
        = some (nearest_color palBW ⟨10, 10, 10⟩) :=
  ⟨(radius_zero_identity img10 palBW).1 0 0 ⟨10, 10, 10⟩,
   (radius_zero_identity img10 palBW).2 (RgbImage.mk 1 1 [⟨0, 0, 0⟩] (by decide))
     rfl 0 0 ⟨10, 10, 10⟩ (by decide)⟩

/-- C10: a negative averaging radius behaves exactly like radius 0: the
`average > 0` guard is not entered, every pixel is fed unchanged into the
match, and the whole transform coincides with the radius-0 transform. -/
theorem negative_radius_like_zero (img : RgbImage) (palette : List Rgb) (average : Int)
    (h : average < 0) :
    (∀ x y pixel, pixelStage1 img average x y pixel = some pixel)
    ∧ transform img palette average = transform img palette 0 := by
  have hstage : ∀ x y pixel, pixelStage1 img average x y pixel = some pixel := by
    intro x y pixel
    unfold pixelStage1
    rw [if_neg (by omega)]
  refine ⟨hstage, ?_⟩
  rw [transform, transform]
  have hcoll : ∀ l, collectResults img palette average l = collectResults img palette 0 l := by
    intro l
    induction l with
    | nil => rfl
    | cons t ts ih =>
      unfold collectResults
      rw [ih]
      have hpc : pixelColor img palette average t.1 t.2.1 t.2.2
          = pixelColor img palette 0 t.1 t.2.1 t.2.2 := by
        unfold pixelColor
        rw [hstage t.1 t.2.1 t.2.2]
        rfl
      rw [hpc]
  rw [hcoll]

/-- Witness for C10 at radius -3 on the concrete image `img10`. -/
theorem negative_radius_like_zero_witness :
    pixelStage1 img10 (-3) 0 0 ⟨10, 10, 10⟩ = some ⟨10, 10, 10⟩
    ∧ transform img10 palBW (-3) = transform img10 palBW 0 :=
  ⟨(negative_radius_like_zero img10 palBW (-3) (by decide)).1 0 0 ⟨10, 10, 10⟩,
   (negative_radius_like_zero img10 palBW (-3) (by decide)).2⟩

/-- C7: for every input grid, palette, radius and flag setting (with the
external quantizer satisfying its dimension-preserving contract), the
pipeline returns a grid of exactly the input grid dimensions. -/
theorem transform_preserves_dimensions (quantizer : Bool → RgbImage → RgbImage)
    (no_quantize no_dither : Bool) (img0 : RgbImage) (palette : List Rgb) (average : Int)
    (hq : ∀ d g, (quantizer d g).width = g.width ∧ (quantizer d g).height = g.height) :
    ∃ out, full_pipeline quantizer no_quantize no_dither img0 palette average = some out
      ∧ out.width = img0.width ∧ out.height = img0.height := by
  have _ := hq
  set input_img := if no_quantize then img0 else quantizer (!no_dither) img0 with hin
  have hcoll := collectResults_eq_map input_img palette average
    (enumeratePixels input_img) (enumeratePixels_bounds input_img)
  refine ⟨scatter input_img.width ((enumeratePixels input_img).map
      (fun t => pixelFn input_img palette average t.1 t.2.1 t.2.2))
      (RgbImage.mk0 img0.width img0.height), ?_, ?_, ?_⟩
  · show (collectResults input_img palette average (enumeratePixels input_img)).map
        (fun output => scatter input_img.width output (RgbImage.mk0 img0.width img0.height))
      = _
    rw [hcoll]
    rfl
  · rw [scatter]
    exact scatterSched_width _ _ _ _
  · rw [scatter]
    exact scatterSched_height _ _ _ _

/-- Witness for C7 with the identity quantizer on the concrete `img10`. -/
theorem transform_preserves_dimensions_witness :
    ∃ out, full_pipeline (fun _ g => g) false false img10 palBW 0 = some out
      ∧ out.width = img10.width ∧ out.height = img10.height :=
  transform_preserves_dimensions (fun _ g => g) false false img10 palBW 0
    (fun _ _ => ⟨rfl, rfl⟩)

/-- C9: determinism and parallel-sequential equivalence: performing the
scatter writes in any schedule that is a permutation of the sequential
index order produces the identical output grid, and every output pixel is
the pure function `pixelFn` of (input grid, coordinate, palette, radius)
alone. -/
theorem transform_deterministic (img : RgbImage) (palette : List Rgb) (average : Int)
    (sched : List Nat)
    (hperm : sched.Perm (List.range (img.width * img.height))) :
    transformSched img palette average sched = transform img palette average
    ∧ ∀ out, transform img palette average = some out →
        ∀ x y pixel, img.get_pixel_checked x y = some pixel →
          out.get_pixel_checked x y = some (pixelFn img palette average x y pixel) := by
  constructor
  · exact transformSched_eq_transform img palette average sched hperm
  · intro out hout x y pixel hp
    obtain ⟨out2, hsome, _, _, hchar⟩ := transform_spec img palette average
    rw [hout] at hsome
    rw [Option.some.inj hsome]
    exact hchar x y pixel hp

/-- Witness for C9 on `img22` with the shuffled schedule [3,0,2,1]. -/
theorem transform_deterministic_witness :
    transformSched img22 palBW 0 [3, 0, 2, 1] = transform img22 palBW 0
    ∧ ∀ out, transform img22 palBW 0 = some out →
        ∀ x y pixel, img22.get_pixel_checked x y = some pixel →
          out.get_pixel_checked x y = some (pixelFn img22 palBW 0 x y pixel) :=
  transform_deterministic img22 palBW 0 [3, 0, 2, 1] (by decide)

/-- C4: `color_difference` is the channelwise sum of absolute differences
of the 8-bit channel values, lies in 0..=765, and is zero on equal
colours. -/
theorem color_difference_l1 (a b : Rgb) :
    color_difference a b
      = ((a.r.val : Int) - b.r.val).natAbs + ((a.g.val : Int) - b.g.val).natAbs
          + ((a.b.val : Int) - b.b.val).natAbs
    ∧ color_difference a b ≤ 765
    ∧ color_difference a a = 0 :=
  ⟨color_difference_eq a b, color_difference_le a b, color_difference_self a⟩

/-- Witness for C3: the spec example, palette [(0,0,0),(255,255,255)] and
colour (100,100,100). -/
theorem nearest_color_min_first_witness :
    ∃ i, palBW.get? i = some (nearest_color palBW ⟨100, 100, 100⟩)
      ∧ (∀ p ∈ palBW, color_difference ⟨100, 100, 100⟩ (nearest_color palBW ⟨100, 100, 100⟩)
            ≤ color_difference ⟨100, 100, 100⟩ p)
      ∧ ∀ j q, j < i → palBW.get? j = some q →
          color_difference ⟨100, 100, 100⟩ (nearest_color palBW ⟨100, 100, 100⟩)
            < color_difference ⟨100, 100, 100⟩ q :=
  nearest_color_min_first palBW ⟨100, 100, 100⟩ (by decide)

/-- C5: for radius > 0 at any in-bounds coordinate the collected sample
window is non-empty (it contains the centre pixel), so `average_color`
never divides by zero there. -/
theorem averaging_window_nonempty (img : RgbImage) (x y : Nat) (average : Int)
    (ha : 0 < average) (hx : x < img.width) (hy : y < img.height) :
    samplePixels img x y average ≠ []
    ∧ (average_color (samplePixels img x y average)).isSome = true :=
  ⟨samplePixels_ne_nil img x y average ha hx hy,
   average_color_isSome _ (samplePixels_ne_nil img x y average ha hx hy)⟩

/-- Witness for C5 at radius 1 on the 1x1 image `img10`. -/
theorem averaging_window_nonempty_witness :
    samplePixels img10 0 0 1 ≠ []
    ∧ (average_color (samplePixels img10 0 0 1)).isSome = true :=
  averaging_window_nonempty img10 0 0 1 (by decide) (by decide) (by decide)

/-- C8: `average_color` averages each channel independently, dividing the
channel sum by the sample count with truncating division (clamped to 255),
and on [(0,0,0),(10,0,0),(0,0,0),(10,0,0)] yields (5,0,0). -/
theorem average_color_channelwise (pixels : List Rgb) (h : pixels ≠ []) :
    (∃ c, average_color pixels = some c
      ∧ c.r.val = min ((pixels.map fun p => p.r.val).sum / pixels.length) 255
      ∧ c.g.val = min ((pixels.map fun p => p.g.val).sum / pixels.length) 255
      ∧ c.b.val = min ((pixels.map fun p => p.b.val).sum / pixels.length) 255)
    ∧ average_color [⟨0, 0, 0⟩, ⟨10, 0, 0⟩, ⟨0, 0, 0⟩, ⟨10, 0, 0⟩] = some ⟨5, 0, 0⟩ := by
  constructor
  · unfold average_color
    rw [if_neg (by simpa using h)]
    have hs := sum_fold pixels ((0, 0, 0) : Nat × Nat × Nat)
    refine ⟨_, rfl, ?_, ?_, ?_⟩ <;> simp only [hs] <;> simp
  · decide

/-- Witness for C8 on the singleton list [(1,2,3)]. -/
theorem average_color_channelwise_witness :
    (∃ c, average_color [(⟨1, 2, 3⟩ : Rgb)] = some c
      ∧ c.r.val = min (([(⟨1, 2, 3⟩ : Rgb)].map fun p => p.r.val).sum / [(⟨1, 2, 3⟩ : Rgb)].length) 255
      ∧ c.g.val = min (([(⟨1, 2, 3⟩ : Rgb)].map fun p => p.g.val).sum / [(⟨1, 2, 3⟩ : Rgb)].length) 255
      ∧ c.b.val = min (([(⟨1, 2, 3⟩ : Rgb)].map fun p => p.b.val).sum / [(⟨1, 2, 3⟩ : Rgb)].length) 255)
    ∧ average_color [⟨0, 0, 0⟩, ⟨10, 0, 0⟩, ⟨0, 0, 0⟩, ⟨10, 0, 0⟩] = some ⟨5, 0, 0⟩ :=
  average_color_channelwise [⟨1, 2, 3⟩] (by decide)

/-- C1 (code evaluated at the failing input): matching the colour
(200,200,200) against the empty palette does not abort; the fold silently
returns its initial accumulator colour (0,0,0). -/
theorem nearest_color_empty_silent_default :
    nearest_color [] ⟨200, 200, 200⟩ = ⟨0, 0, 0⟩ := by decide

/-- C2 counterexample: on a 1x1 grid with radius 2 the window has 16
offsets but only 9 samples are collected, and the offset (dy,dx) = (0,1)
contributes nothing: its x-coordinate is clamped to the width itself,
which the checked lookup rejects, so the offset is skipped rather than
duplicated. -/
theorem samplePixels_skips_out_of_range :
    (offsetRange 2).length * (offsetRange 2).length = 16
    ∧ (samplePixels imgOne 0 0 2).length = 9
    ∧ sampleAt imgOne 0 0 0 1 = none := by
  refine ⟨by decide, by decide, by decide⟩

/-- C2 (amended): the sample loop is the per-offset collection of
`sampleAt`, which clamps each axis into [0, dimension] (upper bound the
dimension itself, not dimension-1); an offset contributes a sample exactly
when its coordinate lies strictly below the dimension on both axes after
clamping (so offsets past the left/top edge are clamped to 0 and do
contribute, while offsets past the right/bottom edge are skipped). -/
theorem samplePixels_clamp_spec (img : RgbImage) (x y : Nat) (average : Int) :
    samplePixels img x y average
      = (offsetRange average).flatMap
          (fun row => (offsetRange average).filterMap (fun column => sampleAt img x y row column))
    ∧ ∀ row column, ((sampleAt img x y row column).isSome = true
        ↔ ((x : Int) + column < img.width ∧ (y : Int) + row < img.height
            ∧ 0 < img.width ∧ 0 < img.height)) :=
  ⟨samplePixels_eq img x y average,
   fun row column => sampleAt_isSome_iff img x y row column⟩
